import Mathlib

/-! GoRSSReader: a shallow embedding of `main.go`

The program reads a feed URL, fetches it over HTTP, decodes the XML into a
`Channel` and prints it.  Go strings and byte slices are byte sequences, so
both are modelled as `List UInt8`.  Standard output is modelled as the byte
sequence a function writes.  The outside world (command line, standard input,
HTTP transport, the lexical layer of the XML decoder) is passed in explicitly.
-/

namespace GoRSSReader

/-! ## Strings, errors, panics -/

/-- A Go `string` or `[]byte`: a finite sequence of bytes. -/
abbrev Str := List UInt8

/-- The bytes of a string literal of `main.go`.  Every literal of the program
is ASCII, where the code point of a character is its single UTF-8 byte. -/
def lit (s : String) : Str := s.data.map (fun c => UInt8.ofNat c.toNat)

/-- A non-nil Go `error`, identified with the text its `Error()` method returns. -/
structure GoError where
  Error : Str
deriving DecidableEq

/-- A Go run-time panic raised by a slice or index expression. -/
inductive Panic where
  /-- `s[:hi]` with `hi` outside `0..len(s)` -/
  | sliceBounds (hi : Int) (len : Nat)
  /-- `s[i]` with `i` outside `0..len(s)-1` -/
  | indexRange (i : Int) (len : Nat)
deriving DecidableEq

/-! ## Data model (`main.go` lines 12-24) -/

/-- Item is a struct representing the `item` tag in an RSS feed.
Struct tags: Title `xml:"title"`, Link `xml:"guid"`,
Description `xml:"description"`, Date `xml:"pubDate"`. -/
structure Item where
  Title : Str
  Link : Str
  Description : Str
  Date : Str
deriving DecidableEq

/-- Channel is a struct representing the `channel` tag in an RSS feed.
Struct tags: Title `xml:"title"`, Items `xml:"item"`. -/
structure Channel where
  Title : Str
  Items : List Item
deriving DecidableEq

/-- The zero value `Item{}`. -/
def Item.zero : Item := ⟨[], [], [], []⟩

/-- The zero value `Channel{}`. -/
def Channel.zero : Channel := ⟨[], []⟩

/-! ## The fragment of package `fmt` the program uses -/

/-- An operand of a print call: a Go `int` or a Go `string`. -/
inductive Arg where
  | int (n : Int)
  | str (s : Str)
deriving DecidableEq

/-- Decimal digits of a natural number, most significant first. -/
def decimal (n : Nat) : Str := (Nat.toDigits 10 n).map (fun c => UInt8.ofNat c.toNat)

/-- Decimal rendering of a Go `int` (verbs `%d` and `%v`). -/
def fmtInteger : Int → Str
  | .ofNat n => decimal n
  | .negSucc n => lit "-" ++ decimal (n + 1)

/-- Right-align `s` in a field of `w` cells by padding with spaces on the left;
text wider than the field is written unshortened. -/
def padLeft (w : Nat) (s : Str) : Str := List.replicate (w - s.length) 32 ++ s

/-- Apply an optional width. -/
def withWidth : Option Nat → Str → Str
  | none, s => s
  | some w, s => padLeft w s

/-- The `type=value` text fmt writes for an operand inside an error marker. -/
def Arg.describe : Arg → Str
  | .int n => lit "int=" ++ fmtInteger n
  | .str s => lit "string=" ++ s

/-- One directive applied to one operand.  `%d` and `%v` render an int in
decimal, `%s` and `%v` render a string as its bytes; a width pads on the left
(for a string the width counts bytes, which is fmt's count for ASCII text; the
program gives no width to a string).  A verb that does not fit the operand is
rendered as fmt's bad-verb marker; the verbs of fmt outside `d`, `s`, `v` are
not used by the program and are rendered the same way. -/
def formatArg (verb : UInt8) (width : Option Nat) : Arg → Str
  | .int n =>
    if verb = 100 ∨ verb = 118 then withWidth width (fmtInteger n)
    else lit "%!" ++ [verb] ++ lit "(" ++ (Arg.int n).describe ++ lit ")"
  | .str s =>
    if verb = 115 ∨ verb = 118 then withWidth width s
    else lit "%!" ++ [verb] ++ lit "(" ++ (Arg.str s).describe ++ lit ")"

/-- Where the scan of a format string stands: in literal text, or inside a
directive after `%` with the width digits read so far. -/
inductive Scan where
  | text
  | directive (width : Option Nat)

/-- The marker fmt appends for operands the format did not use. -/
def extraArgs : List Arg → Str
  | [] => []
  | a :: rest =>
    lit "%!(EXTRA " ++ a.describe ++ (rest.map (fun b => lit ", " ++ b.describe)).flatten ++ lit ")"

/-- The scanning loop of `fmt.Sprintf`: literal bytes are copied, `%%` writes a
percent sign, `%` followed by optional width digits and a verb consumes the next
operand.  Flags, precision and argument indexes, which the program's format
strings do not contain, are outside this fragment. -/
def doPrintf : Scan → Str → List Arg → Str
  | .text, [], args => extraArgs args
  | .text, c :: fs, args =>
    if c = 37 then doPrintf (.directive none) fs args else c :: doPrintf .text fs args
  | .directive _, [], args => lit "%!(NOVERB)" ++ extraArgs args
  | .directive w, c :: fs, args =>
    if 48 ≤ c ∧ c ≤ 57 then
      doPrintf (.directive (some (10 * w.getD 0 + (c.toNat - 48)))) fs args
    else if c = 37 then 37 :: doPrintf .text fs args
    else match args with
      | [] => lit "%!" ++ [c] ++ lit "(MISSING)" ++ doPrintf .text fs []
      | a :: rest => formatArg c w a ++ doPrintf .text fs rest

/-- The text of `fmt.Sprintf(format, args...)`. -/
def Sprintf (format : Str) (args : List Arg) : Str := doPrintf .text format args

/-- The bytes `fmt.Printf(format, args...)` writes to standard output. -/
def Printf (format : Str) (args : List Arg) : Str := Sprintf format args

/-- The bytes `fmt.Print(s)` writes for one string operand. -/
def Print (s : Str) : Str := s

/-- The bytes `fmt.Println(args...)` writes: the operands in their default
format, separated by spaces, then a newline. -/
def Println : List Arg → Str
  | [] => [10]
  | [a] => formatArg 118 none a ++ [10]
  | a :: b :: rest => formatArg 118 none a ++ [32] ++ Println (b :: rest)

/-- The error `fmt.Errorf(format, args...)` returns (no `%w` verb involved). -/
def Errorf (format : Str) (args : List Arg) : GoError := ⟨Sprintf format args⟩

/-! ## PrintXMLData (`main.go` lines 105-114) -/

/-- The body of `for i, item := range xmlData.Items`, started at index `i`. -/
def PrintXMLData.range : Nat → List Item → Str
  | _, [] => []
  | i, item :: rest =>
    Printf (lit "    %2d. %s\n") [.int ((i : Int) + 1), .str item.Title]
      ++ Printf (lit "        %s\n") [.str item.Description]
      ++ Printf (lit "        %s\n") [.str item.Link]
      ++ Printf (lit "        %s\n") [.str item.Date]
      ++ PrintXMLData.range (i + 1) rest

/-- PrintXMLData takes in a Channel struct, formats it, and prints out its
members; the result is the text written to standard output. -/
def PrintXMLData (xmlData : Channel) : Str :=
  Println [.str xmlData.Title] ++ PrintXMLData.range 0 xmlData.Items

/-! ## GetURL (`main.go` lines 44-62) -/

/-- The slice expression `s[:hi]`: panics unless `0 ≤ hi ≤ len(s)`. -/
def sliceTo (s : Str) (hi : Int) : Except Panic Str :=
  if 0 ≤ hi ∧ hi ≤ (s.length : Int) then .ok (s.take hi.toNat)
  else .error (.sliceBounds hi s.length)

/-- The index expression `s[i]`: panics unless `0 ≤ i < len(s)`. -/
def indexByte (s : Str) (i : Int) : Except Panic UInt8 :=
  if 0 ≤ i then
    match s[i.toNat]? with
    | some b => .ok b
    | none => .error (.indexRange i s.length)
  else .error (.indexRange i s.length)

/-- The error `io.EOF`. -/
def EOF : GoError := ⟨lit "EOF"⟩

/-- The call `reader.ReadString(delim)` on a fresh `bufio.Reader` over the
input: the bytes up to and including the first `delim`; when the input ends
before a `delim`, everything read together with `io.EOF`. -/
def ReadString (delim : UInt8) : Str → Str × Option GoError
  | [] => ([], some EOF)
  | c :: rest =>
    if c = delim then ([c], none)
    else ((c :: (ReadString delim rest).1), (ReadString delim rest).2)

/-- GetURL gets a url string from a command-line argument, or if none provided,
asks the user to provide one.  `Args` is `os.Args`, `Stdin` the content of
standard input.  The result is the text written to standard output and either
the returned string or the panic that ended the call. -/
def GetURL (Args : List Str) (Stdin : Str) : Str × Except Panic Str :=
  match Args with
  | _ :: arg :: _ => ([], .ok arg)
  | _ =>
    let out := Print (lit "Enter URL of RSS Feed: ")
    let url := (ReadString 10 Stdin).1
    (out, do
      -- Remove trailing \n.
      let url ← sliceTo url ((url.length : Int) - 1)
      -- Remove trailing \r if exists (Windows support)
      let last ← indexByte url ((url.length : Int) - 1)
      if last = 13 then sliceTo url ((url.length : Int) - 1) else pure url)

/-! ## GetDataFromURL (`main.go` lines 64-87) -/

/-- A response body: the bytes the stream delivers and how it ends, `none`
for a clean end of stream, `some err` for a read error. -/
structure Body where
  data : Str
  err : Option GoError
deriving DecidableEq

/-- The fields of `http.Response` the program reads. -/
structure Response where
  StatusCode : Int
  Body : Body
deriving DecidableEq

/-- `ioutil.ReadAll`: everything read until the stream is over, and the read
error that stopped it, nil at a clean end of stream. -/
def ReadAll (b : Body) : Str × Option GoError := (b.data, b.err)

/-- `http.StatusOK`. -/
def StatusOK : Int := 200

/-- GetDataFromURL requests data from a given URL and returns an array of bytes
that make up the body of the response, if successful.  `Get` is `http.Get`:
a transport error or a response. -/
def GetDataFromURL (Get : Str → Except GoError Response) (url : Str) : Str × Option GoError :=
  match Get url with
  | .error err => ([], some err)
  | .ok res =>
    if res.StatusCode ≠ StatusOK then
      let statusErr := Errorf (lit "Status error: %v\n") [.int res.StatusCode]
      ([], some statusErr)
    else
      match ReadAll res.Body with
      | (_, some err) => ([], some err)
      | (data, none) => (data, none)

/-! ## The token stream of `encoding/xml` -/

/-- `xml.Name`. -/
structure Name where
  Space : Str
  Local : Str
deriving DecidableEq

/-- `xml.Attr`. -/
structure Attr where
  Name : Name
  Value : Str
deriving DecidableEq

/-- `xml.Token`: what `Decoder.Token` returns. -/
inductive Token where
  | StartElement (Name : Name) (Attr : List Attr)
  | EndElement (Name : Name)
  | CharData (data : Str)
  | Comment (data : Str)
  | ProcInst (Target : Str) (Inst : Str)
  | Directive (data : Str)
deriving DecidableEq

/-- What the lexical layer of the decoder makes of a byte sequence: the tokens
successive `Decoder.Token` calls return, and the error returned ever after
(`io.EOF` at a clean end, a syntax error at an unclosed or mismatched tag, or an
encoding error). -/
structure TokenStream where
  tokens : List Token
  err : GoError
deriving DecidableEq

/-- The tokens a decoder call leaves unread, no more than it was given. -/
abbrev Rest (ts : List Token) := { r : List Token // r.length ≤ ts.length }

/-- Nothing was read. -/
@[simp] def Rest.all (ts : List Token) : Rest ts := ⟨ts, Nat.le_refl _⟩

/-- One token was read before what `r` accounts for. -/
@[simp] def Rest.tail {t : Token} {ts : List Token} (r : Rest ts) : Rest (t :: ts) :=
  ⟨r.1, Nat.le_succ_of_le r.2⟩

/-- One token, then a call leaving `r`, then a call leaving `q`. -/
@[simp] def Rest.after {t : Token} {ts : List Token} (r : Rest ts) (q : Rest r.1) :
    Rest (t :: ts) :=
  ⟨q.1, Nat.le_succ_of_le (Nat.le_trans q.2 r.2)⟩

/-- `Decoder.Skip`: reads tokens until the end element that closes the most
recent start element already consumed, counting nested start elements. -/
def Skip (err : GoError) : Nat → (ts : List Token) → Option GoError × Rest ts
  | _, [] => (some err, Rest.all [])
  | depth, .StartElement _ _ :: ts =>
    let r := Skip err (depth + 1) ts
    (r.1, r.2.tail)
  | 0, .EndElement _ :: ts => (none, (Rest.all ts).tail)
  | depth + 1, .EndElement _ :: ts =>
    let r := Skip err depth ts
    (r.1, r.2.tail)
  | depth, _ :: ts =>
    let r := Skip err depth ts
    (r.1, r.2.tail)

/-! ## `Decoder.unmarshal` at the types of the program

`xml.Unmarshal` walks the value by reflection.  For a fixed Go type the walk is
fixed, so `unmarshal` is written out once per type: `string`, `Item`,
`Channel` (with its `[]Item` field) and the anonymous wrapper struct of
`ReadXMLData`.  None of these types has an attribute, character-data, comment
or any field, so attributes, comments and the character data of a struct
element are dropped; the nesting of the types is 3, far below the decoder's
depth limit of 10000.  A start element is matched to the first field whose tag
equals the element's local name (the tags name no namespace, so the namespace
of the element is not compared). -/

/-- The token loop of `unmarshal` for a `string`: character data directly inside
the element is accumulated, nested elements are skipped. -/
def unmarshalString.loop (err : GoError) (data : Str) :
    (ts : List Token) → Except GoError Str × Rest ts
  | [] => (.error err, Rest.all [])
  | .StartElement _ _ :: ts =>
    match Skip err 0 ts with
    | (some e, r) => (.error e, r.tail)
    | (none, r) =>
      let q := unmarshalString.loop err data r.1
      (q.1, r.after q.2)
  | .EndElement _ :: ts => (.ok data, (Rest.all ts).tail)
  | .CharData t :: ts =>
    let q := unmarshalString.loop err (data ++ t) ts
    (q.1, q.2.tail)
  | _ :: ts =>
    let q := unmarshalString.loop err data ts
    (q.1, q.2.tail)
termination_by ts => ts.length
decreasing_by
  all_goals simp_wf
  all_goals omega

/-- The call `unmarshal` for a `string` whose start element has been read: at
the end element the accumulated data is stored (`copyValue`); on an error the
value is left as it was. -/
def unmarshalString (err : GoError) (val : Str) (ts : List Token) :
    (Str × Option GoError) × Rest ts :=
  match unmarshalString.loop err [] ts with
  | (.ok data, r) => ((data, none), r)
  | (.error e, r) => ((val, some e), r)

/-- The fields of `Item`, in declaration order. -/
inductive ItemField where
  | Title
  | Link
  | Description
  | Date
deriving DecidableEq

/-- The element name of each field, from its struct tag. -/
def ItemField.tag : ItemField → Str
  | .Title => lit "title"
  | .Link => lit "guid"
  | .Description => lit "description"
  | .Date => lit "pubDate"

/-- The fields of `Item` in declaration order. -/
def ItemField.all : List ItemField := [.Title, .Link, .Description, .Date]

/-- The first field of `Item` whose tag is the local name (`unmarshalPath`). -/
def ItemField.find (name : Str) : Option ItemField :=
  ItemField.all.find? (fun f => f.tag = name)

/-- Field read. -/
def Item.get (it : Item) : ItemField → Str
  | .Title => it.Title
  | .Link => it.Link
  | .Description => it.Description
  | .Date => it.Date

/-- Field assignment. -/
def Item.set (it : Item) : ItemField → Str → Item
  | .Title, v => { it with Title := v }
  | .Link, v => { it with Link := v }
  | .Description, v => { it with Description := v }
  | .Date, v => { it with Date := v }

/-- The call `unmarshal` for an `Item` whose start element has been read. -/
def unmarshalItem (err : GoError) (sv : Item) :
    (ts : List Token) → (Item × Option GoError) × Rest ts
  | [] => ((sv, some err), Rest.all [])
  | .StartElement name _ :: ts =>
    match ItemField.find name.Local with
    | some f =>
      match unmarshalString err (sv.get f) ts with
      | ((v, some e), r) => ((sv.set f v, some e), r.tail)
      | ((v, none), r) =>
        let q := unmarshalItem err (sv.set f v) r.1
        (q.1, r.after q.2)
    | none =>
      match Skip err 0 ts with
      | (some e, r) => ((sv, some e), r.tail)
      | (none, r) =>
        let q := unmarshalItem err sv r.1
        (q.1, r.after q.2)
  | .EndElement _ :: ts => ((sv, none), (Rest.all ts).tail)
  | _ :: ts =>
    let q := unmarshalItem err sv ts
    (q.1, q.2.tail)
termination_by ts => ts.length
decreasing_by
  all_goals simp_wf
  all_goals omega

/-- The call `unmarshal` for a `Channel` whose start element has been read.
For the slice field `Items` the slice is grown by one zero `Item`, the element
is decoded into it, and the slice is cut back if that fails. -/
def unmarshalChannel (err : GoError) (sv : Channel) :
    (ts : List Token) → (Channel × Option GoError) × Rest ts
  | [] => ((sv, some err), Rest.all [])
  | .StartElement name _ :: ts =>
    if name.Local = lit "title" then
      match unmarshalString err sv.Title ts with
      | ((v, some e), r) => (({ sv with Title := v }, some e), r.tail)
      | ((v, none), r) =>
        let q := unmarshalChannel err { sv with Title := v } r.1
        (q.1, r.after q.2)
    else if name.Local = lit "item" then
      match unmarshalItem err Item.zero ts with
      | ((_, some e), r) => ((sv, some e), r.tail)
      | ((item, none), r) =>
        let q := unmarshalChannel err { sv with Items := sv.Items ++ [item] } r.1
        (q.1, r.after q.2)
    else
      match Skip err 0 ts with
      | (some e, r) => ((sv, some e), r.tail)
      | (none, r) =>
        let q := unmarshalChannel err sv r.1
        (q.1, r.after q.2)
  | .EndElement _ :: ts => ((sv, none), (Rest.all ts).tail)
  | _ :: ts =>
    let q := unmarshalChannel err sv ts
    (q.1, q.2.tail)
termination_by ts => ts.length
decreasing_by
  all_goals simp_wf
  all_goals omega

/-- The anonymous struct `rss` of `ReadXMLData`: one field, Channel
`xml:"channel"`. -/
structure Rss where
  Channel : Channel
deriving DecidableEq

/-- The call `unmarshal` for the wrapper struct whose start element has been
read. -/
def unmarshalRss (err : GoError) (sv : Rss) :
    (ts : List Token) → (Rss × Option GoError) × Rest ts
  | [] => ((sv, some err), Rest.all [])
  | .StartElement name _ :: ts =>
    if name.Local = lit "channel" then
      match unmarshalChannel err sv.Channel ts with
      | ((v, some e), r) => ((⟨v⟩, some e), r.tail)
      | ((v, none), r) =>
        let q := unmarshalRss err ⟨v⟩ r.1
        (q.1, r.after q.2)
    else
      match Skip err 0 ts with
      | (some e, r) => ((sv, some e), r.tail)
      | (none, r) =>
        let q := unmarshalRss err sv r.1
        (q.1, r.after q.2)
  | .EndElement _ :: ts => ((sv, none), (Rest.all ts).tail)
  | _ :: ts =>
    let q := unmarshalRss err sv ts
    (q.1, q.2.tail)
termination_by ts => ts.length
decreasing_by
  all_goals simp_wf
  all_goals omega

/-- The start of `unmarshal` when no start element is given: tokens are read
until the first start element; the result is what follows it. -/
def findStart (err : GoError) : (ts : List Token) → Option GoError × Rest ts
  | [] => (some err, Rest.all [])
  | .StartElement _ _ :: ts => (none, (Rest.all ts).tail)
  | _ :: ts =>
    let r := findStart err ts
    (r.1, r.2.tail)

/-- `Decoder.Decode(&rss)` on a decoder over the token stream `s`: the wrapper
struct after the call and the error returned.  The root element is taken
whatever its name (the struct has no XMLName field); nothing after its end
element is read. -/
def Decode (s : TokenStream) (rss : Rss) : Rss × Option GoError :=
  match findStart s.err s.tokens with
  | (some e, _) => (rss, some e)
  | (none, r) => (unmarshalRss s.err rss r.1).1

/-- `xml.Unmarshal(data, &rss)`, which is `NewDecoder(data).Decode(&rss)`. -/
def Unmarshal (tokenize : Str → TokenStream) (data : Str) (rss : Rss) : Rss × Option GoError :=
  Decode (tokenize data) rss

/-! ## ReadXMLData (`main.go` lines 89-103) -/

/-- ReadXMLData takes in an array of bytes and tries to parse those values into
a Channel struct.  `tokenize` is the lexical layer of the XML decoder. -/
def ReadXMLData (tokenize : Str → TokenStream) (data : Str) : Channel × Option GoError :=
  let rss : Rss := ⟨Channel.zero⟩
  match Unmarshal tokenize data rss with
  | (_, some err) => (Channel.zero, some err)
  | (rss, none) => (rss.Channel, none)

/-! ## main (`main.go` lines 26-42) -/

/-- The program: the text written to standard output, and the panic that ended
the run if there was one. -/
def main (Args : List Str) (Stdin : Str) (Get : Str → Except GoError Response)
    (tokenize : Str → TokenStream) : Str × Option Panic :=
  match GetURL Args Stdin with
  | (out, .error p) => (out, some p)
  | (out, .ok url) =>
    match GetDataFromURL Get url with
    | (_, some err) => (out ++ Println [.str err.Error], none)
    | (data, none) =>
      match ReadXMLData tokenize data with
      | (_, some err) => (out ++ Println [.str err.Error], none)
      | (xmlData, none) => (out ++ PrintXMLData xmlData, none)

/-! ## Documents as trees

The claims about decoding speak of a document, its elements and their child
elements.  A document is well formed when the lexical layer delivers the tokens
of a tree. -/

/-- A node of a document. -/
inductive Node where
  | element (Name : Name) (Attr : List Attr) (children : List Node)
  | chardata (data : Str)
  | comment (data : Str)
  | procinst (Target : Str) (Inst : Str)
  | directive (data : Str)

mutual
/-- The tokens of a node in document order. -/
def Node.tokens : Node → List Token
  | .element n a kids => .StartElement n a :: (tokensOf kids ++ [.EndElement n])
  | .chardata d => [.CharData d]
  | .comment d => [.Comment d]
  | .procinst t i => [.ProcInst t i]
  | .directive d => [.Directive d]
/-- The tokens of a sequence of nodes in document order. -/
def tokensOf : List Node → List Token
  | [] => []
  | n :: ns => n.tokens ++ tokensOf ns
end

/-- Whether a token is a start element. -/
def Token.isStart : Token → Bool
  | .StartElement _ _ => true
  | _ => false

/-- The content of a node if it is an element with the given local name. -/
def Node.named (name : Str) : Node → Option (List Node)
  | .element n _ kids => if n.Local = name then some kids else none
  | _ => none

/-- The child elements with the given local name, each given by its content,
in document order. -/
def elementsNamed (name : Str) (kids : List Node) : List (List Node) :=
  kids.filterMap (Node.named name)

/-- The text of an element: the character data directly inside it. -/
def textOf : List Node → Str
  | [] => []
  | .chardata d :: ns => d ++ textOf ns
  | _ :: ns => textOf ns

/-- The Item the specification assigns to an item element with content `kids`:
each field is the text of the child element its tag names, the last one if
there are several, and empty if there is none. -/
def fieldText (name : Str) (kids : List Node) : Str :=
  match (elementsNamed name kids).getLast? with
  | some e => textOf e
  | none => []

/-- The Item decoded from an item element with content `kids`, field by field. -/
def decodeItem (kids : List Node) : Item :=
  { Title := fieldText (lit "title") kids
    Link := fieldText (lit "guid") kids
    Description := fieldText (lit "description") kids
    Date := fieldText (lit "pubDate") kids }

/-- The effect of one child node on an Item that is being decoded. -/
def Item.absorb (sv : Item) : Node → Item
  | .element nm _ ch =>
    match ItemField.find nm.Local with
    | some f => sv.set f (textOf ch)
    | none => sv
  | _ => sv

/-- The effect of one child node on a Channel that is being decoded. -/
def Channel.absorb (sv : Channel) : Node → Channel
  | .element nm _ ch =>
    if nm.Local = lit "title" then { sv with Title := textOf ch }
    else if nm.Local = lit "item" then
      { sv with Items := sv.Items ++ [ch.foldl Item.absorb Item.zero] }
    else sv
  | _ => sv

/-- The effect of one child node of the root on the wrapper struct. -/
def Rss.absorb (sv : Rss) : Node → Rss
  | .element nm _ ch =>
    if nm.Local = lit "channel" then ⟨ch.foldl Channel.absorb sv.Channel⟩ else sv
  | _ => sv

/-- The Channel the specification assigns to a channel element with content
`kids`: the title is the text of the title child, the items are the item
children decoded one by one in document order. -/
def decodeChannel (kids : List Node) : Channel :=
  { Title := fieldText (lit "title") kids
    Items := (elementsNamed (lit "item") kids).map decodeItem }

/-! ## Sample inputs -/

/-- An element name without a namespace. -/
def plain (s : String) : Name := ⟨[], lit s⟩

/-- An element without attributes. -/
def elem (s : String) (kids : List Node) : Node := .element (plain s) [] kids

/-- A run of character data. -/
def chars (s : String) : Node := .chardata (lit s)

/-- A feed with one complete item. -/
def feedBytes : Str :=
  lit ("<rss><channel><title>Feed</title><item><title>A</title><guid>u1</guid>"
    ++ "<description>d1</description><pubDate>p1</pubDate></item></channel></rss>")

/-- The content of the channel element of `feedBytes`. -/
def feedChannel : List Node :=
  [elem "title" [chars "Feed"],
   elem "item" [elem "title" [chars "A"], elem "guid" [chars "u1"],
     elem "description" [chars "d1"], elem "pubDate" [chars "p1"]]]

/-- A feed whose first item has a link but no guid, description or date, and
whose second item has a guid and a link but no title. -/
def sparseBytes : Str :=
  lit ("<rss><channel><title>T</title><item><title>A</title><link>L</link></item>"
    ++ "<item><guid>g</guid><link>M</link></item></channel></rss>")

/-- The content of the first item of `sparseBytes`. -/
def sparseFirst : List Node := [elem "title" [chars "A"], elem "link" [chars "L"]]

/-- The content of the second item of `sparseBytes`. -/
def sparseSecond : List Node := [elem "guid" [chars "g"], elem "link" [chars "M"]]

/-- The content of the channel element of `sparseBytes`. -/
def sparseChannel : List Node :=
  [elem "title" [chars "T"], elem "item" sparseFirst, elem "item" sparseSecond]

/-- A document that ends inside an item element. -/
def brokenBytes : Str := lit "<rss><channel><title>T</title><item>"

/-- The tokens the decoder reads from `brokenBytes` before the input ends. -/
def brokenTokens : List Token :=
  [.StartElement (plain "rss") [], .StartElement (plain "channel") [],
   .StartElement (plain "title") [], .CharData (lit "T"), .EndElement (plain "title"),
   .StartElement (plain "item") []]

/-- The syntax error the decoder reports for `brokenBytes`. -/
def unexpectedEOF : GoError := ⟨lit "XML syntax error on line 1: unexpected EOF"⟩

/-- A well-formed feed with one item (a title, no guid, description or date)
that declares the encoding ISO-8859-1. -/
def latin1Bytes : Str :=
  lit ("<?xml version=\"1.0\" encoding=\"ISO-8859-1\"?>"
    ++ "<rss><channel><title>T</title><item><title>A</title></item></channel></rss>")

/-- The error of the decoder at the declaration of `latin1Bytes`: `xml.Unmarshal`
sets no CharsetReader, so an encoding other than UTF-8 stops the first call of
`Decoder.Token`. -/
def charsetError : GoError :=
  ⟨lit "xml: encoding \"ISO-8859-1\" declared but Decoder.CharsetReader is nil"⟩

/-- The namespace of the prefix `media` in `mediaBytes`. -/
def mrss : Str := lit "http://search.yahoo.com/mrss/"

/-- A feed whose item has a `media:title` and a guid but no `title`. -/
def mediaBytes : Str :=
  lit ("<rss xmlns:media=\"http://search.yahoo.com/mrss/\"><channel><item>"
    ++ "<media:title>B</media:title><guid>g</guid></item></channel></rss>")

/-- The content of the item of `mediaBytes`: the element `media:title` has the
local name title in the namespace of its prefix. -/
def mediaItem : List Node :=
  [.element ⟨mrss, lit "title"⟩ [] [chars "B"], elem "guid" [chars "g"]]

/-- The root element of `mediaBytes`. -/
def mediaRoot : Node :=
  .element (plain "rss") [⟨⟨lit "xmlns", lit "media"⟩, mrss⟩]
    [elem "channel" [elem "item" mediaItem]]

/-- The lexical layer on the sample documents. -/
def sampleTokenize (data : Str) : TokenStream :=
  if data = feedBytes then ⟨(elem "rss" [elem "channel" feedChannel]).tokens, EOF⟩
  else if data = sparseBytes then ⟨(elem "rss" [elem "channel" sparseChannel]).tokens, EOF⟩
  else if data = brokenBytes then ⟨brokenTokens, unexpectedEOF⟩
  else if data = latin1Bytes then ⟨[], charsetError⟩
  else if data = mediaBytes then ⟨mediaRoot.tokens, EOF⟩
  else ⟨[], EOF⟩

/-- The child elements with exactly the given name, namespace included, each
given by its content. -/
def elementsWithName (name : Name) (kids : List Node) : List (List Node) :=
  kids.filterMap (fun k =>
    match k with
    | .element n _ ch => if n = name then some ch else none
    | _ => none)

/-- A channel with ten items. -/
def tenItems : Channel :=
  ⟨lit "T", [⟨lit "first", lit "u1", lit "d1", lit "p1"⟩]
    ++ List.replicate 8 ⟨lit "a", lit "u", lit "d", lit "p"⟩
    ++ [⟨lit "last", lit "u10", lit "d10", lit "p10"⟩]⟩

/-- The text PrintXMLData is to write for `tenItems`. -/
def tenItemsText : Str :=
  lit ("T\n"
    ++ "     1. first\n        d1\n        u1\n        p1\n"
    ++ "     2. a\n        d\n        u\n        p\n"
    ++ "     3. a\n        d\n        u\n        p\n"
    ++ "     4. a\n        d\n        u\n        p\n"
    ++ "     5. a\n        d\n        u\n        p\n"
    ++ "     6. a\n        d\n        u\n        p\n"
    ++ "     7. a\n        d\n        u\n        p\n"
    ++ "     8. a\n        d\n        u\n        p\n"
    ++ "     9. a\n        d\n        u\n        p\n"
    ++ "    10. last\n        d10\n        u10\n        p10\n")

/-- A transport: one address answers 404 with a body, one serves `feedBytes`,
one serves `brokenBytes`, one breaks off while the body is read, and every
other address cannot be reached. -/
def sampleGet (url : Str) : Except GoError Response :=
  if url = lit "http://a/missing" then .ok ⟨404, ⟨lit "not found", none⟩⟩
  else if url = lit "http://a/feed" then .ok ⟨200, ⟨feedBytes, none⟩⟩
  else if url = lit "http://a/broken" then .ok ⟨200, ⟨brokenBytes, none⟩⟩
  else if url = lit "http://a/cut" then .ok ⟨200, ⟨lit "<rss>", some ⟨lit "unexpected EOF"⟩⟩⟩
  else .error ⟨lit "dial tcp: no such host"⟩

/-! ### The presentation as the specification words it -/

/-- The number `k` in decimal: its base-10 digits, most significant first, each
written as the ASCII digit; zero is the single digit 0. -/
def numeral (k : Nat) : Str :=
  if k = 0 then [48] else (Nat.digits 10 k).reverse.map (fun d => UInt8.ofNat (48 + d))

/-- The number `k` in decimal, right-aligned by space padding to width 2: a
one-digit number is preceded by one space, a longer one is written as it is. -/
def indexField (k : Nat) : Str := if k < 10 then [32] ++ numeral k else numeral k

/-- The four lines of the `k`-th item as the specification describes them. -/
def itemLines (k : Nat) (it : Item) : Str :=
  lit "    " ++ indexField k ++ lit ". " ++ it.Title ++ lit "\n"
    ++ lit "        " ++ it.Description ++ lit "\n"
    ++ lit "        " ++ it.Link ++ lit "\n"
    ++ lit "        " ++ it.Date ++ lit "\n"

/-- The lines of the items `its`, numbered from `k`. -/
def itemsFrom : Nat → List Item → Str
  | _, [] => []
  | k, it :: rest => itemLines k it ++ itemsFrom (k + 1) rest

/-- The whole presentation: the title line, then the items numbered from 1. -/
def presentation (c : Channel) : Str := c.Title ++ lit "\n" ++ itemsFrom 1 c.Items

/-! ## Theorems -/

theorem Printf_indexLine (i : Nat) (t : Str) :
    Printf (lit "    %2d. %s\n") [.int ((i : Int) + 1), .str t]
      = lit "    " ++ padLeft 2 (decimal (i + 1)) ++ lit ". " ++ t ++ lit "\n" := by
  have h : ((i : Int) + 1) = Int.ofNat (i + 1) := rfl
  rw [h]
  simp [Printf, Sprintf, lit, doPrintf, formatArg, withWidth, fmtInteger, extraArgs, UInt8.size]

theorem Printf_fieldLine (t : Str) :
    Printf (lit "        %s\n") [.str t] = lit "        " ++ t ++ lit "\n" := by
  simp [Printf, Sprintf, lit, doPrintf, formatArg, withWidth, extraArgs]

theorem digitChar_byte (d : Nat) (h : d < 10) :
    UInt8.ofNat (Nat.digitChar d).toNat = UInt8.ofNat (48 + d) := by
  interval_cases d <;> rfl

theorem toDigitsCore_digits : ∀ (fuel n : Nat) (ds : List Char), n < fuel →
    Nat.toDigitsCore 10 fuel n ds
      = (if n = 0 then [Nat.digitChar 0] else (Nat.digits 10 n).reverse.map Nat.digitChar) ++ ds
  | 0, n, ds, h => by omega
  | fuel + 1, n, ds, h => by
    rw [Nat.toDigitsCore]
    by_cases h0 : n / 10 = 0
    · have hlt : n < 10 := by omega
      by_cases hn : n = 0
      · subst hn
        simp
      · have hd : Nat.digits 10 n = [n] := Nat.digits_of_lt 10 n hn hlt
        simp [h0, hn, hd, Nat.mod_eq_of_lt hlt]
    · have hn : n ≠ 0 := by
        intro e
        subst e
        simp at h0
      have ih := toDigitsCore_digits fuel (n / 10) (Nat.digitChar (n % 10) :: ds) (by omega)
      have hd : Nat.digits 10 n = (n % 10) :: Nat.digits 10 (n / 10) :=
        Nat.digits_def' (by decide) (Nat.pos_of_ne_zero hn)
      simp [h0, hn, ih, hd]

/-- The digits fmt writes are the base-10 digits of the number. -/
theorem decimal_eq_numeral (k : Nat) : decimal k = numeral k := by
  unfold decimal numeral Nat.toDigits
  rw [toDigitsCore_digits (k + 1) k [] (by omega)]
  by_cases hk : k = 0
  · subst hk
    rfl
  · simp only [hk, if_false, List.append_nil, List.map_map]
    apply List.map_congr_left
    intro d hd
    have : d < 10 := Nat.digits_lt_base (by decide) (List.mem_reverse.mp hd)
    exact digitChar_byte d this

theorem numeral_length_one (k : Nat) (h : k < 10) : (numeral k).length = 1 := by
  unfold numeral
  by_cases hk : k = 0
  · subst hk
    simp
  · simp [hk, Nat.digits_of_lt 10 k hk h]

theorem numeral_length_two (k : Nat) (h : 10 ≤ k) : 2 ≤ (numeral k).length := by
  unfold numeral
  have hk : k ≠ 0 := by omega
  have hd : Nat.digits 10 k = (k % 10) :: Nat.digits 10 (k / 10) :=
    Nat.digits_def' (by decide) (Nat.pos_of_ne_zero hk)
  have hq : 0 < k / 10 := by omega
  have hd2 : Nat.digits 10 (k / 10) = (k / 10 % 10) :: Nat.digits 10 (k / 10 / 10) :=
    Nat.digits_def' (by decide) hq
  simp [hk, hd, hd2]

/-- The width-2 field fmt writes for `%2d` is the number right-aligned by space
padding to width 2. -/
theorem padLeft_decimal (k : Nat) : padLeft 2 (decimal k) = indexField k := by
  rw [decimal_eq_numeral]
  unfold padLeft indexField
  by_cases h : k < 10
  · simp [h, numeral_length_one k h]
  · have h2 := numeral_length_two k (by omega)
    have h0 : 2 - (numeral k).length = 0 := by omega
    simp [h, h0]

theorem PrintXMLData_range_eq (i : Nat) (its : List Item) :
    PrintXMLData.range i its = itemsFrom (i + 1) its := by
  induction its generalizing i with
  | nil => rfl
  | cons it rest ih =>
    simp only [PrintXMLData.range, itemsFrom, itemLines, Printf_indexLine, Printf_fieldLine, ih,
      List.append_assoc, padLeft_decimal]

/-- C1: the text PrintXMLData writes is the channel title and a newline, then
for each item in list order its four lines (index from 1 right-aligned to width
2, title; description; link; date), and nothing else. -/
theorem PrintXMLData_output (c : Channel) : PrintXMLData c = presentation c := by
  simp [PrintXMLData, presentation, Println, formatArg, withWidth, PrintXMLData_range_eq, lit]

set_option maxRecDepth 100000 in
theorem PrintXMLData_tenItems : PrintXMLData tenItems = tenItemsText := by
  rfl

/-- The output for a channel with ten items, byte for byte: the indexes 1 to 9
take a leading space, the index 10 takes none. -/
theorem PrintXMLData_output_witness :
    PrintXMLData tenItems = tenItemsText ∧ presentation tenItems = tenItemsText :=
  ⟨PrintXMLData_tenItems, (PrintXMLData_output tenItems).symm.trans PrintXMLData_tenItems⟩

/-! ### The decoder on the tokens of a tree -/

theorem Skip_start (err : GoError) (d : Nat) (n : Name) (a : List Attr) (ts : List Token) :
    (Skip err d (.StartElement n a :: ts)).1 = (Skip err (d + 1) ts).1
      ∧ (Skip err d (.StartElement n a :: ts)).2.1 = (Skip err (d + 1) ts).2.1 := by
  simp [Skip]

theorem Skip_end_succ (err : GoError) (d : Nat) (n : Name) (ts : List Token) :
    (Skip err (d + 1) (.EndElement n :: ts)).1 = (Skip err d ts).1
      ∧ (Skip err (d + 1) (.EndElement n :: ts)).2.1 = (Skip err d ts).2.1 := by
  simp [Skip]

theorem Skip_end_zero (err : GoError) (n : Name) (ts : List Token) :
    (Skip err 0 (.EndElement n :: ts)).1 = none
      ∧ (Skip err 0 (.EndElement n :: ts)).2.1 = ts := by
  simp [Skip]

mutual
theorem Skip_node (err : GoError) : ∀ (n : Node) (d : Nat) (ts : List Token),
    (Skip err d (n.tokens ++ ts)).1 = (Skip err d ts).1
      ∧ (Skip err d (n.tokens ++ ts)).2.1 = (Skip err d ts).2.1
  | .element nm a kids, d, ts => by
    have h := Skip_nodes err kids (d + 1) (.EndElement nm :: ts)
    have h2 := Skip_end_succ err d nm ts
    have h1 := Skip_start err d nm a (tokensOf kids ++ .EndElement nm :: ts)
    have e : (Node.element nm a kids).tokens ++ ts
        = .StartElement nm a :: (tokensOf kids ++ .EndElement nm :: ts) := by
      simp [Node.tokens]
    rw [e]
    exact ⟨h1.1.trans (h.1.trans h2.1), h1.2.trans (h.2.trans h2.2)⟩
  | .chardata _, d, ts => by simp [Node.tokens, Skip]
  | .comment _, d, ts => by simp [Node.tokens, Skip]
  | .procinst _ _, d, ts => by simp [Node.tokens, Skip]
  | .directive _, d, ts => by simp [Node.tokens, Skip]
theorem Skip_nodes (err : GoError) : ∀ (ns : List Node) (d : Nat) (ts : List Token),
    (Skip err d (tokensOf ns ++ ts)).1 = (Skip err d ts).1
      ∧ (Skip err d (tokensOf ns ++ ts)).2.1 = (Skip err d ts).2.1
  | [], d, ts => by simp [tokensOf]
  | n :: ns, d, ts => by
    have h1 := Skip_node err n d (tokensOf ns ++ ts)
    have h2 := Skip_nodes err ns d ts
    have e : tokensOf (n :: ns) ++ ts = n.tokens ++ (tokensOf ns ++ ts) := by
      simp [tokensOf]
    rw [e]
    exact ⟨h1.1.trans h2.1, h1.2.trans h2.2⟩
end

/-- Skipping the content of an element and its end element succeeds and leaves
what follows the end element. -/
theorem Skip_content (err : GoError) (kids : List Node) (n : Name) (ts : List Token) :
    (Skip err 0 (tokensOf kids ++ .EndElement n :: ts)).1 = none
      ∧ (Skip err 0 (tokensOf kids ++ .EndElement n :: ts)).2.1 = ts := by
  have h := Skip_nodes err kids 0 (.EndElement n :: ts)
  have h0 := Skip_end_zero err n ts
  exact ⟨h.1.trans h0.1, h.2.trans h0.2⟩

theorem Skip_content_eq (err : GoError) (kids : List Node) (n : Name) (ts : List Token) :
    ∃ h, Skip err 0 (tokensOf kids ++ .EndElement n :: ts) = (none, ⟨ts, h⟩) := by
  have h := Skip_content err kids n ts
  generalize Skip err 0 (tokensOf kids ++ .EndElement n :: ts) = r at h
  obtain ⟨o, r1, hr⟩ := r
  obtain ⟨h1, h2⟩ := h
  simp only at h1 h2
  subst h1 h2
  exact ⟨hr, rfl⟩

theorem tokensOf_element_cons (nm : Name) (a : List Attr) (ch ns : List Node) (ts : List Token) :
    tokensOf (.element nm a ch :: ns) ++ ts
      = .StartElement nm a :: (tokensOf ch ++ .EndElement nm :: (tokensOf ns ++ ts)) := by
  simp [tokensOf, Node.tokens]

theorem stringLoop_content (err : GoError) (n : Name) (ts : List Token) :
    ∀ (kids : List Node) (data : Str),
      (unmarshalString.loop err data (tokensOf kids ++ .EndElement n :: ts)).1
          = .ok (data ++ textOf kids)
        ∧ (unmarshalString.loop err data (tokensOf kids ++ .EndElement n :: ts)).2.1 = ts
  | [], data => by simp [tokensOf, textOf, unmarshalString.loop]
  | .element nm a ch :: ns, data => by
    obtain ⟨h, hS⟩ := Skip_content_eq err ch nm (tokensOf ns ++ .EndElement n :: ts)
    have ih := stringLoop_content err n ts ns data
    rw [tokensOf_element_cons, unmarshalString.loop, hS]
    simpa [textOf] using ih
  | .chardata d :: ns, data => by
    have ih := stringLoop_content err n ts ns (data ++ d)
    simpa [tokensOf, Node.tokens, unmarshalString.loop, textOf] using ih
  | .comment d :: ns, data => by
    have ih := stringLoop_content err n ts ns data
    simpa [tokensOf, Node.tokens, unmarshalString.loop, textOf] using ih
  | .procinst _ _ :: ns, data => by
    have ih := stringLoop_content err n ts ns data
    simpa [tokensOf, Node.tokens, unmarshalString.loop, textOf] using ih
  | .directive d :: ns, data => by
    have ih := stringLoop_content err n ts ns data
    simpa [tokensOf, Node.tokens, unmarshalString.loop, textOf] using ih

/-- Decoding a string from the content of an element yields the element's text. -/
theorem unmarshalString_content (err : GoError) (val : Str) (kids : List Node) (n : Name)
    (ts : List Token) :
    ∃ h, unmarshalString err val (tokensOf kids ++ .EndElement n :: ts)
      = ((textOf kids, none), ⟨ts, h⟩) := by
  have h := stringLoop_content err n ts kids []
  unfold unmarshalString
  generalize unmarshalString.loop err [] (tokensOf kids ++ .EndElement n :: ts) = r at h
  obtain ⟨o, r1, hr⟩ := r
  obtain ⟨h1, h2⟩ := h
  simp only at h1 h2
  subst h1 h2
  exact ⟨hr, by simp⟩

/-- Decoding an Item from the content of an element applies the child nodes in
document order. -/
theorem unmarshalItem_content (err : GoError) (n : Name) (ts : List Token) :
    ∀ (kids : List Node) (sv : Item),
      ∃ h, unmarshalItem err sv (tokensOf kids ++ .EndElement n :: ts)
        = ((kids.foldl Item.absorb sv, none), ⟨ts, h⟩)
  | [], sv => by simp [tokensOf, unmarshalItem]
  | .element nm a ch :: ns, sv => by
    rw [tokensOf_element_cons, unmarshalItem]
    cases hf : ItemField.find nm.Local with
    | some f =>
      obtain ⟨h, hS⟩ := unmarshalString_content err (sv.get f) ch nm
        (tokensOf ns ++ .EndElement n :: ts)
      obtain ⟨h2, ih⟩ := unmarshalItem_content err n ts ns (sv.set f (textOf ch))
      simp only [hS, ih, List.foldl_cons, Item.absorb, hf]
      exact ⟨Nat.le_succ_of_le (Nat.le_trans h2 h), rfl⟩
    | none =>
      obtain ⟨h, hS⟩ := Skip_content_eq err ch nm (tokensOf ns ++ .EndElement n :: ts)
      obtain ⟨h2, ih⟩ := unmarshalItem_content err n ts ns sv
      simp only [hS, ih, List.foldl_cons, Item.absorb, hf]
      exact ⟨Nat.le_succ_of_le (Nat.le_trans h2 h), rfl⟩
  | .chardata d :: ns, sv => by
    obtain ⟨h2, ih⟩ := unmarshalItem_content err n ts ns sv
    simp [tokensOf, Node.tokens, unmarshalItem, Item.absorb, ih]
    omega
  | .comment d :: ns, sv => by
    obtain ⟨h2, ih⟩ := unmarshalItem_content err n ts ns sv
    simp [tokensOf, Node.tokens, unmarshalItem, Item.absorb, ih]
    omega
  | .procinst _ _ :: ns, sv => by
    obtain ⟨h2, ih⟩ := unmarshalItem_content err n ts ns sv
    simp [tokensOf, Node.tokens, unmarshalItem, Item.absorb, ih]
    omega
  | .directive d :: ns, sv => by
    obtain ⟨h2, ih⟩ := unmarshalItem_content err n ts ns sv
    simp [tokensOf, Node.tokens, unmarshalItem, Item.absorb, ih]
    omega

/-- Decoding a Channel from the content of an element applies the child nodes
in document order. -/
theorem unmarshalChannel_content (err : GoError) (n : Name) (ts : List Token) :
    ∀ (kids : List Node) (sv : Channel),
      ∃ h, unmarshalChannel err sv (tokensOf kids ++ .EndElement n :: ts)
        = ((kids.foldl Channel.absorb sv, none), ⟨ts, h⟩)
  | [], sv => by simp [tokensOf, unmarshalChannel]
  | .element nm a ch :: ns, sv => by
    rw [tokensOf_element_cons, unmarshalChannel]
    by_cases h1 : nm.Local = lit "title"
    · obtain ⟨h, hS⟩ := unmarshalString_content err sv.Title ch nm
        (tokensOf ns ++ .EndElement n :: ts)
      obtain ⟨h2, ih⟩ := unmarshalChannel_content err n ts ns { sv with Title := textOf ch }
      simp only [h1, if_true, hS, ih, List.foldl_cons, Channel.absorb]
      exact ⟨Nat.le_succ_of_le (Nat.le_trans h2 h), rfl⟩
    · by_cases h3 : nm.Local = lit "item"
      · obtain ⟨h, hS⟩ := unmarshalItem_content err nm (tokensOf ns ++ .EndElement n :: ts)
          ch Item.zero
        obtain ⟨h2, ih⟩ := unmarshalChannel_content err n ts ns
          { sv with Items := sv.Items ++ [ch.foldl Item.absorb Item.zero] }
        simp only [h1, h3, if_true, if_false, hS, ih, List.foldl_cons, Channel.absorb]
        exact ⟨Nat.le_succ_of_le (Nat.le_trans h2 h), rfl⟩
      · obtain ⟨h, hS⟩ := Skip_content_eq err ch nm (tokensOf ns ++ .EndElement n :: ts)
        obtain ⟨h2, ih⟩ := unmarshalChannel_content err n ts ns sv
        simp only [h1, h3, if_false, hS, ih, List.foldl_cons, Channel.absorb]
        exact ⟨Nat.le_succ_of_le (Nat.le_trans h2 h), rfl⟩
  | .chardata d :: ns, sv => by
    obtain ⟨h2, ih⟩ := unmarshalChannel_content err n ts ns sv
    simp [tokensOf, Node.tokens, unmarshalChannel, Channel.absorb, ih]
    omega
  | .comment d :: ns, sv => by
    obtain ⟨h2, ih⟩ := unmarshalChannel_content err n ts ns sv
    simp [tokensOf, Node.tokens, unmarshalChannel, Channel.absorb, ih]
    omega
  | .procinst _ _ :: ns, sv => by
    obtain ⟨h2, ih⟩ := unmarshalChannel_content err n ts ns sv
    simp [tokensOf, Node.tokens, unmarshalChannel, Channel.absorb, ih]
    omega
  | .directive d :: ns, sv => by
    obtain ⟨h2, ih⟩ := unmarshalChannel_content err n ts ns sv
    simp [tokensOf, Node.tokens, unmarshalChannel, Channel.absorb, ih]
    omega

/-- Decoding the wrapper struct from the content of the root element applies
the child nodes in document order. -/
theorem unmarshalRss_content (err : GoError) (n : Name) (ts : List Token) :
    ∀ (kids : List Node) (sv : Rss),
      ∃ h, unmarshalRss err sv (tokensOf kids ++ .EndElement n :: ts)
        = ((kids.foldl Rss.absorb sv, none), ⟨ts, h⟩)
  | [], sv => by simp [tokensOf, unmarshalRss]
  | .element nm a ch :: ns, sv => by
    rw [tokensOf_element_cons, unmarshalRss]
    by_cases h1 : nm.Local = lit "channel"
    · obtain ⟨h, hS⟩ := unmarshalChannel_content err nm (tokensOf ns ++ .EndElement n :: ts)
        ch sv.Channel
      obtain ⟨h2, ih⟩ := unmarshalRss_content err n ts ns ⟨ch.foldl Channel.absorb sv.Channel⟩
      simp only [h1, if_true, hS, ih, List.foldl_cons, Rss.absorb]
      exact ⟨Nat.le_succ_of_le (Nat.le_trans h2 h), rfl⟩
    · obtain ⟨h, hS⟩ := Skip_content_eq err ch nm (tokensOf ns ++ .EndElement n :: ts)
      obtain ⟨h2, ih⟩ := unmarshalRss_content err n ts ns sv
      simp only [h1, if_false, hS, ih, List.foldl_cons, Rss.absorb]
      exact ⟨Nat.le_succ_of_le (Nat.le_trans h2 h), rfl⟩
  | .chardata d :: ns, sv => by
    obtain ⟨h2, ih⟩ := unmarshalRss_content err n ts ns sv
    simp [tokensOf, Node.tokens, unmarshalRss, Rss.absorb, ih]
    omega
  | .comment d :: ns, sv => by
    obtain ⟨h2, ih⟩ := unmarshalRss_content err n ts ns sv
    simp [tokensOf, Node.tokens, unmarshalRss, Rss.absorb, ih]
    omega
  | .procinst _ _ :: ns, sv => by
    obtain ⟨h2, ih⟩ := unmarshalRss_content err n ts ns sv
    simp [tokensOf, Node.tokens, unmarshalRss, Rss.absorb, ih]
    omega
  | .directive d :: ns, sv => by
    obtain ⟨h2, ih⟩ := unmarshalRss_content err n ts ns sv
    simp [tokensOf, Node.tokens, unmarshalRss, Rss.absorb, ih]
    omega

/-! ### What the applied child nodes amount to -/

theorem ItemField.find_tag (f : ItemField) : ItemField.find f.tag = some f := by
  cases f <;> rfl

theorem ItemField.tag_of_find {name : Str} {g : ItemField} (h : ItemField.find name = some g) :
    g.tag = name := by
  have := List.find?_some h
  simpa using this

theorem Item.get_set (sv : Item) (f g : ItemField) (v : Str) :
    (sv.set g v).get f = if g = f then v else sv.get f := by
  cases f <;> cases g <;> simp [Item.set, Item.get]

theorem Item.absorb_get (sv : Item) (k : Node) (f : ItemField) :
    (sv.absorb k).get f = match k.named f.tag with
      | some ch => textOf ch
      | none => sv.get f := by
  cases k with
  | element nm a ch =>
    by_cases h : nm.Local = f.tag
    · simp [Item.absorb, Node.named, h, ItemField.find_tag, Item.get_set]
    · cases hg : ItemField.find nm.Local with
      | none => simp [Item.absorb, Node.named, h, hg]
      | some g =>
        have hne : g ≠ f := by
          intro e
          exact h (by rw [← e, ItemField.tag_of_find hg])
        simp [Item.absorb, Node.named, h, hg, Item.get_set, hne]
  | chardata d => simp [Item.absorb, Node.named]
  | comment d => simp [Item.absorb, Node.named]
  | procinst t i => simp [Item.absorb, Node.named]
  | directive d => simp [Item.absorb, Node.named]

theorem getLast?_cons_getD {α : Type} (a : α) (l : List α) :
    (a :: l).getLast? = some (l.getLast?.getD a) := by
  cases l with
  | nil => rfl
  | cons b l => simp [List.getLast?_cons_cons, List.getLast?_cons]

/-- A field of the Item built from the child nodes is the text of the last
child element its tag names, and keeps its value if there is none. -/
theorem Item.foldl_absorb_get (f : ItemField) :
    ∀ (kids : List Node) (sv : Item),
      (kids.foldl Item.absorb sv).get f
        = match (elementsNamed f.tag kids).getLast? with
          | some e => textOf e
          | none => sv.get f
  | [], sv => by simp [elementsNamed]
  | k :: ks, sv => by
    have ih := Item.foldl_absorb_get f ks (sv.absorb k)
    rw [List.foldl_cons, ih, Item.absorb_get]
    cases hk : k.named f.tag with
    | none => simp [elementsNamed, List.filterMap_cons, hk]
    | some ch =>
      have e : elementsNamed f.tag (k :: ks) = ch :: elementsNamed f.tag ks := by
        simp [elementsNamed, List.filterMap_cons, hk]
      rw [e, getLast?_cons_getD]
      cases (elementsNamed f.tag ks).getLast? <;> simp

theorem Item.ext_get {a b : Item} (h : ∀ f, a.get f = b.get f) : a = b := by
  cases a
  cases b
  have h1 := h .Title
  have h2 := h .Link
  have h3 := h .Description
  have h4 := h .Date
  simp only [Item.get] at h1 h2 h3 h4
  simp [h1, h2, h3, h4]

/-- The Item built by the decoder from the content of an item element is the
Item of the specification. -/
theorem foldl_absorb_eq_decodeItem (kids : List Node) :
    kids.foldl Item.absorb Item.zero = decodeItem kids := by
  apply Item.ext_get
  intro f
  rw [Item.foldl_absorb_get]
  cases f <;> simp [decodeItem, fieldText, Item.get, ItemField.tag, Item.zero]

theorem Channel.absorb_eq (sv : Channel) (k : Node) :
    sv.absorb k =
      { Title := match k.named (lit "title") with
          | some ch => textOf ch
          | none => sv.Title
        Items := sv.Items ++ (elementsNamed (lit "item") [k]).map decodeItem } := by
  have hti : lit "title" ≠ lit "item" := by decide
  have hit : lit "item" ≠ lit "title" := by decide
  cases k with
  | element nm a ch =>
    by_cases h1 : nm.Local = lit "title"
    · simp [Channel.absorb, Node.named, elementsNamed, h1, hti]
    · by_cases h2 : nm.Local = lit "item"
      · simp [Channel.absorb, Node.named, elementsNamed, h2, hit, foldl_absorb_eq_decodeItem]
      · simp [Channel.absorb, Node.named, elementsNamed, h1, h2]
  | chardata d => simp [Channel.absorb, Node.named, elementsNamed]
  | comment d => simp [Channel.absorb, Node.named, elementsNamed]
  | procinst t i => simp [Channel.absorb, Node.named, elementsNamed]
  | directive d => simp [Channel.absorb, Node.named, elementsNamed]

/-- The Channel built by the decoder from the content of a channel element:
the title is the text of the last title child (unchanged if there is none), and
the item children are appended in document order. -/
theorem Channel.foldl_absorb_channel :
    ∀ (kids : List Node) (sv : Channel),
      kids.foldl Channel.absorb sv =
        { Title := match (elementsNamed (lit "title") kids).getLast? with
            | some e => textOf e
            | none => sv.Title
          Items := sv.Items ++ (elementsNamed (lit "item") kids).map decodeItem }
  | [], sv => by simp [elementsNamed]
  | k :: ks, sv => by
    rw [List.foldl_cons, Channel.foldl_absorb_channel ks (sv.absorb k), Channel.absorb_eq]
    have e2 : elementsNamed (lit "item") (k :: ks)
        = elementsNamed (lit "item") [k] ++ elementsNamed (lit "item") ks := by
      simp only [elementsNamed, List.filterMap_cons, List.filterMap_nil]
      cases k.named (lit "item") <;> simp
    rw [e2]
    cases hk : k.named (lit "title") with
    | none => simp [elementsNamed, List.filterMap_cons, hk]
    | some ch =>
      have e : elementsNamed (lit "title") (k :: ks) = ch :: elementsNamed (lit "title") ks := by
        simp [elementsNamed, List.filterMap_cons, hk]
      rw [e, getLast?_cons_getD]
      cases (elementsNamed (lit "title") ks).getLast? <;> simp

theorem foldl_absorb_eq_decodeChannel (kids : List Node) :
    kids.foldl Channel.absorb Channel.zero = decodeChannel kids := by
  rw [Channel.foldl_absorb_channel]
  simp [decodeChannel, fieldText, Channel.zero]

/-- The wrapper struct built from the content of the root element: the channel
children are decoded into the one Channel, one after the other. -/
theorem Rss.foldl_absorb_root :
    ∀ (kids : List Node) (sv : Rss),
      kids.foldl Rss.absorb sv
        = ⟨(elementsNamed (lit "channel") kids).foldl
            (fun c ch => ch.foldl Channel.absorb c) sv.Channel⟩
  | [], sv => by simp [elementsNamed]
  | k :: ks, sv => by
    rw [List.foldl_cons, Rss.foldl_absorb_root ks (sv.absorb k)]
    cases k with
    | element nm a ch =>
      by_cases h1 : nm.Local = lit "channel"
      · simp [Rss.absorb, Node.named, elementsNamed, List.filterMap_cons, h1]
      · simp [Rss.absorb, Node.named, elementsNamed, List.filterMap_cons, h1]
    | chardata d => simp [Rss.absorb, Node.named, elementsNamed, List.filterMap_cons]
    | comment d => simp [Rss.absorb, Node.named, elementsNamed, List.filterMap_cons]
    | procinst t i => simp [Rss.absorb, Node.named, elementsNamed, List.filterMap_cons]
    | directive d => simp [Rss.absorb, Node.named, elementsNamed, List.filterMap_cons]

theorem findStart_misc (err : GoError) (n : Name) (a : List Attr) (ts : List Token) :
    ∀ (misc : List Token), (∀ t ∈ misc, t.isStart = false) →
      ∃ h, findStart err (misc ++ .StartElement n a :: ts) = (none, ⟨ts, h⟩)
  | [], _ => by simp [findStart]
  | t :: misc, hm => by
    obtain ⟨h, ih⟩ := findStart_misc err n a ts misc (fun u hu => hm u (List.mem_cons_of_mem _ hu))
    have ht := hm t (List.mem_cons_self _ _)
    cases t <;> simp [Token.isStart] at ht <;> simp [findStart, ih] <;> omega

/-- On a well-formed document `xml.Unmarshal` succeeds and applies the children
of the root element to the wrapper struct. -/
theorem Unmarshal_wellFormed (tokenize : Str → TokenStream) (data : Str) (rss : Rss)
    (misc rest : List Token) (e : GoError) (root : Name) (attrs : List Attr) (kids : List Node)
    (hdoc : tokenize data = ⟨misc ++ (Node.element root attrs kids).tokens ++ rest, e⟩)
    (hmisc : ∀ t ∈ misc, t.isStart = false) :
    Unmarshal tokenize data rss = (kids.foldl Rss.absorb rss, none) := by
  have e1 : misc ++ (Node.element root attrs kids).tokens ++ rest
      = misc ++ .StartElement root attrs :: (tokensOf kids ++ .EndElement root :: rest) := by
    simp [Node.tokens]
  obtain ⟨h, hF⟩ := findStart_misc e root attrs (tokensOf kids ++ .EndElement root :: rest)
    misc hmisc
  obtain ⟨h2, hU⟩ := unmarshalRss_content e root rest kids rss
  rw [Unmarshal, hdoc, e1, Decode]
  simp only [hF, hU]

/-- On a well-formed document whose root has exactly one channel child,
`ReadXMLData` succeeds with the Channel of the specification. -/
theorem ReadXMLData_wellFormed (tokenize : Str → TokenStream) (data : Str)
    (misc rest : List Token) (e : GoError) (root : Name) (attrs : List Attr)
    (kids chKids : List Node)
    (hdoc : tokenize data = ⟨misc ++ (Node.element root attrs kids).tokens ++ rest, e⟩)
    (hmisc : ∀ t ∈ misc, t.isStart = false)
    (hch : elementsNamed (lit "channel") kids = [chKids]) :
    ReadXMLData tokenize data = (decodeChannel chKids, none) := by
  simp only [ReadXMLData, Unmarshal_wellFormed tokenize data _ misc rest e root attrs kids hdoc hmisc,
    Rss.foldl_absorb_root, hch, List.foldl_cons, List.foldl_nil, foldl_absorb_eq_decodeChannel]

/-! ### Decoding claims -/

theorem ReadXMLData_latin1 :
    ReadXMLData sampleTokenize latin1Bytes = (Channel.zero, some charsetError) := by
  rfl

theorem ReadXMLData_media :
    ReadXMLData sampleTokenize mediaBytes
      = (decodeChannel [elem "item" mediaItem], none) :=
  ReadXMLData_wellFormed sampleTokenize mediaBytes [] [] EOF (plain "rss")
    [⟨⟨lit "xmlns", lit "media"⟩, mrss⟩] [elem "channel" [elem "item" mediaItem]]
    [elem "item" mediaItem] rfl (by simp) rfl

/-- C2 as stated fails: `latin1Bytes` is a well-formed document whose channel
element contains one item element, yet ReadXMLData returns the decoder's error
and a Channel without items, because the decoder does not read the declared
encoding. -/
theorem ReadXMLData_items_counterexample :
    ¬ ((ReadXMLData sampleTokenize latin1Bytes).2 = none
        ∧ (ReadXMLData sampleTokenize latin1Bytes).1.Items.length = 1) := by
  rw [ReadXMLData_latin1]
  simp

/-- C2, amended: on a document of which the decoder's lexical layer delivers
the tokens of a tree (after tokens that are no start element) whose root has
one channel child containing N child elements with the local name item,
ReadXMLData succeeds, Items has exactly N entries, and the k-th entry is the
Item decoded from the k-th of these item children. -/
theorem ReadXMLData_items_in_document_order (tokenize : Str → TokenStream) (data : Str)
    (misc rest : List Token) (e : GoError) (root : Name) (attrs : List Attr)
    (kids chKids : List Node)
    (hdoc : tokenize data = ⟨misc ++ (Node.element root attrs kids).tokens ++ rest, e⟩)
    (hmisc : ∀ t ∈ misc, t.isStart = false)
    (hch : elementsNamed (lit "channel") kids = [chKids]) :
    (ReadXMLData tokenize data).2 = none
      ∧ (ReadXMLData tokenize data).1.Items.length = (elementsNamed (lit "item") chKids).length
      ∧ ∀ (k : Nat) (itKids : List Node),
          (elementsNamed (lit "item") chKids)[k]? = some itKids →
            (ReadXMLData tokenize data).1.Items[k]? = some (decodeItem itKids) := by
  rw [ReadXMLData_wellFormed tokenize data misc rest e root attrs kids chKids hdoc hmisc hch]
  refine ⟨rfl, by simp [decodeChannel], ?_⟩
  intro k itKids hk
  simp [decodeChannel, List.getElem?_map, hk]

/-- The two items of `sparseBytes` come out in document order, and the one item
of `feedBytes` with all its fields. -/
theorem ReadXMLData_items_in_document_order_witness :
    ((ReadXMLData sampleTokenize sparseBytes).2 = none
      ∧ (ReadXMLData sampleTokenize sparseBytes).1.Items.length = 2
      ∧ (ReadXMLData sampleTokenize sparseBytes).1.Items[0]? = some ⟨lit "A", [], [], []⟩
      ∧ (ReadXMLData sampleTokenize sparseBytes).1.Items[1]? = some ⟨[], lit "g", [], []⟩)
    ∧ ((ReadXMLData sampleTokenize feedBytes).2 = none
      ∧ (ReadXMLData sampleTokenize feedBytes).1.Items.length = 1
      ∧ (ReadXMLData sampleTokenize feedBytes).1.Items[0]?
          = some ⟨lit "A", lit "u1", lit "d1", lit "p1"⟩) := by
  have h := ReadXMLData_items_in_document_order sampleTokenize feedBytes [] [] EOF (plain "rss") []
    [elem "channel" feedChannel] feedChannel rfl (by simp) rfl
  have g := ReadXMLData_items_in_document_order sampleTokenize sparseBytes [] [] EOF
    (plain "rss") [] [elem "channel" sparseChannel] sparseChannel rfl (by simp) rfl
  exact ⟨⟨g.1, g.2.1, g.2.2 0 _ rfl, g.2.2 1 _ rfl⟩, ⟨h.1, h.2.1, h.2.2 0 _ rfl⟩⟩

/-- C3 as stated fails twice.  `latin1Bytes` is a well-formed document whose
item lacks guid, description and pubDate, and ReadXMLData does not succeed on
it.  The item of `mediaBytes` has no title element (only a `media:title`), and
its Title is not empty: it is the text of the `media:title`. -/
theorem ReadXMLData_missing_elements_counterexample :
    (ReadXMLData sampleTokenize latin1Bytes).2 ≠ none
      ∧ (elementsWithName (plain "title") mediaItem = []
        ∧ ∃ it, (ReadXMLData sampleTokenize mediaBytes).1.Items[0]? = some it
          ∧ it.Title = lit "B" ∧ it.Title ≠ []) := by
  rw [ReadXMLData_latin1, ReadXMLData_media]
  refine ⟨by simp, rfl, decodeItem mediaItem, rfl, rfl, ?_⟩
  have h : (decodeItem mediaItem).Title = lit "B" := rfl
  rw [h]
  decide

/-- C3, amended: on a document of which the decoder's lexical layer delivers
the tokens of a tree, ReadXMLData succeeds, and for the k-th item child: Title
is empty when the item has no child element with the local name title and is
the text of that child when it has one; likewise Link for guid, Description
for description and Date for pubDate. -/
theorem ReadXMLData_missing_elements_empty (tokenize : Str → TokenStream) (data : Str)
    (misc rest : List Token) (e : GoError) (root : Name) (attrs : List Attr)
    (kids chKids : List Node) (k : Nat) (itKids : List Node)
    (hdoc : tokenize data = ⟨misc ++ (Node.element root attrs kids).tokens ++ rest, e⟩)
    (hmisc : ∀ t ∈ misc, t.isStart = false)
    (hch : elementsNamed (lit "channel") kids = [chKids])
    (hk : (elementsNamed (lit "item") chKids)[k]? = some itKids) :
    (ReadXMLData tokenize data).2 = none
      ∧ ∃ it, (ReadXMLData tokenize data).1.Items[k]? = some it
        ∧ ((elementsNamed (lit "title") itKids = [] → it.Title = [])
          ∧ (∀ el, elementsNamed (lit "title") itKids = [el] → it.Title = textOf el))
        ∧ ((elementsNamed (lit "guid") itKids = [] → it.Link = [])
          ∧ (∀ el, elementsNamed (lit "guid") itKids = [el] → it.Link = textOf el))
        ∧ ((elementsNamed (lit "description") itKids = [] → it.Description = [])
          ∧ (∀ el, elementsNamed (lit "description") itKids = [el] →
              it.Description = textOf el))
        ∧ ((elementsNamed (lit "pubDate") itKids = [] → it.Date = [])
          ∧ (∀ el, elementsNamed (lit "pubDate") itKids = [el] → it.Date = textOf el)) := by
  rw [ReadXMLData_wellFormed tokenize data misc rest e root attrs kids chKids hdoc hmisc hch]
  refine ⟨rfl, decodeItem itKids, by simp [decodeChannel, List.getElem?_map, hk],
    ⟨?_, ?_⟩, ⟨?_, ?_⟩, ⟨?_, ?_⟩, ⟨?_, ?_⟩⟩
  · intro h0
    simp [decodeItem, fieldText, h0]
  · intro el h1
    simp [decodeItem, fieldText, h1]
  · intro h0
    simp [decodeItem, fieldText, h0]
  · intro el h1
    simp [decodeItem, fieldText, h1]
  · intro h0
    simp [decodeItem, fieldText, h0]
  · intro el h1
    simp [decodeItem, fieldText, h1]
  · intro h0
    simp [decodeItem, fieldText, h0]
  · intro el h1
    simp [decodeItem, fieldText, h1]

/-- The first item of `sparseBytes` has only a title: the other three fields are
empty.  The item of `feedBytes` has all four elements: each field is the text
of its element, Date that of pubDate. -/
theorem ReadXMLData_missing_elements_empty_witness :
    ((ReadXMLData sampleTokenize sparseBytes).2 = none
      ∧ ∃ it, (ReadXMLData sampleTokenize sparseBytes).1.Items[0]? = some it
        ∧ it.Title = lit "A" ∧ it.Link = [] ∧ it.Description = [] ∧ it.Date = [])
    ∧ ((ReadXMLData sampleTokenize feedBytes).2 = none
      ∧ ∃ it, (ReadXMLData sampleTokenize feedBytes).1.Items[0]? = some it
        ∧ it.Title = lit "A" ∧ it.Link = lit "u1" ∧ it.Description = lit "d1"
        ∧ it.Date = lit "p1") := by
  obtain ⟨h1, it, h2, ht, hl, hd, hp⟩ :=
    ReadXMLData_missing_elements_empty sampleTokenize sparseBytes [] [] EOF (plain "rss") []
      [elem "channel" sparseChannel] sparseChannel 0 sparseFirst rfl (by simp) rfl rfl
  obtain ⟨g1, jt, g2, gt, gl, gd, gp⟩ :=
    ReadXMLData_missing_elements_empty sampleTokenize feedBytes [] [] EOF (plain "rss") []
      [elem "channel" feedChannel] feedChannel 0
      [elem "title" [chars "A"], elem "guid" [chars "u1"],
        elem "description" [chars "d1"], elem "pubDate" [chars "p1"]] rfl (by simp) rfl rfl
  exact ⟨⟨h1, it, h2, ht.2 [chars "A"] rfl, hl.1 rfl, hd.1 rfl, hp.1 rfl⟩,
    ⟨g1, jt, g2, gt.2 [chars "A"] rfl, gl.2 [chars "u1"] rfl, gd.2 [chars "d1"] rfl,
      gp.2 [chars "p1"] rfl⟩⟩

/-- C4: on a well-formed document the Link of the k-th Item is the text of the
guid child of the k-th item element and depends on nothing but the guid
children: it is empty when there is no guid child (also when there is a link
child), it is the guid text when there is one guid child (also when there is a
link child), and any item content with the same guid children has the same
Link. -/
theorem ReadXMLData_link_is_guid (tokenize : Str → TokenStream) (data : Str)
    (misc rest : List Token) (e : GoError) (root : Name) (attrs : List Attr)
    (kids chKids : List Node) (k : Nat) (itKids : List Node)
    (hdoc : tokenize data = ⟨misc ++ (Node.element root attrs kids).tokens ++ rest, e⟩)
    (hmisc : ∀ t ∈ misc, t.isStart = false)
    (hch : elementsNamed (lit "channel") kids = [chKids])
    (hk : (elementsNamed (lit "item") chKids)[k]? = some itKids) :
    ∃ it, (ReadXMLData tokenize data).1.Items[k]? = some it
      ∧ it.Link = fieldText (lit "guid") itKids
      ∧ (elementsNamed (lit "guid") itKids = [] → it.Link = [])
      ∧ (∀ g, elementsNamed (lit "guid") itKids = [g] → it.Link = textOf g)
      ∧ (∀ other : List Node,
          elementsNamed (lit "guid") other = elementsNamed (lit "guid") itKids →
            (decodeItem other).Link = it.Link) := by
  rw [ReadXMLData_wellFormed tokenize data misc rest e root attrs kids chKids hdoc hmisc hch]
  refine ⟨decodeItem itKids, by simp [decodeChannel, List.getElem?_map, hk], rfl, ?_, ?_, ?_⟩
  · intro h0
    simp [decodeItem, fieldText, h0]
  · intro g h1
    simp [decodeItem, fieldText, h1]
  · intro other ho
    simp [decodeItem, fieldText, ho]

theorem ReadXMLData_link_is_guid_witness :
    (elementsNamed (lit "link") sparseFirst = [[chars "L"]]
        ∧ ∃ it, (ReadXMLData sampleTokenize sparseBytes).1.Items[0]? = some it ∧ it.Link = [])
      ∧ (elementsNamed (lit "link") sparseSecond = [[chars "M"]]
        ∧ ∃ it, (ReadXMLData sampleTokenize sparseBytes).1.Items[1]? = some it
          ∧ it.Link = lit "g") := by
  obtain ⟨it0, a0, _, b0, _⟩ := ReadXMLData_link_is_guid sampleTokenize sparseBytes [] [] EOF
    (plain "rss") [] [elem "channel" sparseChannel] sparseChannel 0 sparseFirst
    rfl (by simp) rfl rfl
  obtain ⟨it1, a1, _, _, c1, _⟩ := ReadXMLData_link_is_guid sampleTokenize sparseBytes [] [] EOF
    (plain "rss") [] [elem "channel" sparseChannel] sparseChannel 1 sparseSecond
    rfl (by simp) rfl rfl
  exact ⟨⟨rfl, it0, a0, b0 rfl⟩, ⟨rfl, it1, a1, c1 [chars "g"] rfl⟩⟩

/-- C5: when the XML decoding of `data` fails with error `err`, ReadXMLData
returns `err` and the empty Channel (empty Title, no Items), whatever had been
decoded before the failure. -/
theorem ReadXMLData_decode_error (tokenize : Str → TokenStream) (data : Str) (err : GoError)
    (hfail : (Unmarshal tokenize data ⟨Channel.zero⟩).2 = some err) :
    (ReadXMLData tokenize data).2 = some err
      ∧ (ReadXMLData tokenize data).1 = Channel.zero
      ∧ (ReadXMLData tokenize data).1.Title = []
      ∧ (ReadXMLData tokenize data).1.Items = [] := by
  cases hU : Unmarshal tokenize data ⟨Channel.zero⟩ with
  | mk v o =>
    rw [hU] at hfail
    simp only at hfail
    subst hfail
    have hR : ReadXMLData tokenize data = (Channel.zero, some err) := by
      simp only [ReadXMLData, hU]
    rw [hR]
    exact ⟨rfl, rfl, rfl, rfl⟩

theorem Unmarshal_broken :
    Unmarshal sampleTokenize brokenBytes ⟨Channel.zero⟩
      = (⟨⟨lit "T", []⟩⟩, some unexpectedEOF) := by
  simp [Unmarshal, Decode, sampleTokenize, brokenBytes, brokenTokens, lit, feedBytes,
    sparseBytes, findStart, unmarshalRss, unmarshalChannel, unmarshalString,
    unmarshalString.loop, unmarshalItem, plain, Channel.zero]

theorem ReadXMLData_broken :
    ReadXMLData sampleTokenize brokenBytes = (Channel.zero, some unexpectedEOF) := by
  simp only [ReadXMLData, Unmarshal_broken]

theorem ReadXMLData_decode_error_witness :
    (Unmarshal sampleTokenize brokenBytes ⟨Channel.zero⟩).1.Channel.Title = lit "T"
      ∧ (ReadXMLData sampleTokenize brokenBytes).2 = some unexpectedEOF
      ∧ (ReadXMLData sampleTokenize brokenBytes).1 = Channel.zero
      ∧ (ReadXMLData sampleTokenize brokenBytes).1.Title = []
      ∧ (ReadXMLData sampleTokenize brokenBytes).1.Items = [] :=
  ⟨by rw [Unmarshal_broken],
    ReadXMLData_decode_error sampleTokenize brokenBytes unexpectedEOF (by rw [Unmarshal_broken])⟩

/-! ### Fetching claims -/

/-- C6: when the transport delivers a response whose status code is not 200,
GetDataFromURL returns no bytes and the error whose text is "Status error: ",
the code in decimal and a newline, whatever the response body is. -/
theorem GetDataFromURL_status_error (Get : Str → Except GoError Response) (url : Str)
    (res : Response) (hget : Get url = .ok res) (hcode : res.StatusCode ≠ 200) :
    GetDataFromURL Get url
      = ([], some ⟨lit "Status error: " ++ fmtInteger res.StatusCode ++ lit "\n"⟩) := by
  have h : res.StatusCode ≠ StatusOK := hcode
  simp [GetDataFromURL, hget, h, Errorf, Sprintf, doPrintf, formatArg, withWidth, extraArgs, lit]

theorem GetDataFromURL_status_error_witness :
    GetDataFromURL sampleGet (lit "http://a/missing") = ([], some ⟨lit "Status error: 404\n"⟩) :=
  GetDataFromURL_status_error sampleGet (lit "http://a/missing") ⟨404, ⟨lit "not found", none⟩⟩
    rfl (by decide)

/-- C7: GetDataFromURL returns a nil error exactly when the transport succeeds,
the status code is 200 and reading the body succeeds; then the returned bytes
are the whole body, and in every other case no bytes are returned. -/
theorem GetDataFromURL_nil_error_iff (Get : Str → Except GoError Response) (url : Str) :
    ((GetDataFromURL Get url).2 = none
        ↔ ∃ res, Get url = .ok res ∧ res.StatusCode = 200 ∧ (ReadAll res.Body).2 = none)
      ∧ (∀ res, Get url = .ok res → res.StatusCode = 200 → (ReadAll res.Body).2 = none →
          (GetDataFromURL Get url).1 = res.Body.data)
      ∧ ((GetDataFromURL Get url).2 ≠ none → (GetDataFromURL Get url).1 = []) := by
  unfold GetDataFromURL
  cases hg : Get url with
  | error err => simp
  | ok res =>
    by_cases hc : res.StatusCode = 200
    · cases hb : res.Body.err with
      | none => simp [hc, ReadAll, hb, StatusOK]
      | some be => simp [hc, ReadAll, hb, StatusOK]
    · simp [hc, StatusOK]

theorem GetDataFromURL_nil_error_iff_witness :
    GetDataFromURL sampleGet (lit "http://a/feed") = (feedBytes, none)
      ∧ (GetDataFromURL sampleGet (lit "http://a/cut")).1 = [] := by
  have h := GetDataFromURL_nil_error_iff sampleGet (lit "http://a/feed")
  have h2 := GetDataFromURL_nil_error_iff sampleGet (lit "http://a/cut")
  refine ⟨Prod.ext (h.2.1 ⟨200, ⟨feedBytes, none⟩⟩ rfl rfl rfl) ?_, h2.2.2 ?_⟩
  · exact h.1.mpr ⟨⟨200, ⟨feedBytes, none⟩⟩, rfl, rfl, rfl⟩
  · intro hn
    obtain ⟨res, hr, _, hb⟩ := h2.1.mp hn
    have : res = ⟨200, ⟨lit "<rss>", some ⟨lit "unexpected EOF"⟩⟩⟩ := by
      have e : sampleGet (lit "http://a/cut")
          = .ok ⟨200, ⟨lit "<rss>", some ⟨lit "unexpected EOF"⟩⟩⟩ := rfl
      rw [e] at hr
      injection hr with hr
      exact hr.symm
    subst this
    simp [ReadAll] at hb

/-! ### The URL stage -/

theorem ReadString_line (rest : Str) :
    ∀ (s : Str), (∀ b ∈ s, b ≠ 10) → ReadString 10 (s ++ 10 :: rest) = (s ++ [10], none)
  | [], _ => by simp [ReadString]
  | c :: s, h => by
    have hc : c ≠ 10 := h c (List.mem_cons_self _ _)
    have ih := ReadString_line rest s (fun b hb => h b (List.mem_cons_of_mem _ hb))
    simp [ReadString, hc, ih]

theorem ReadString_unterminated :
    ∀ (s : Str), (∀ b ∈ s, b ≠ 10) → ReadString 10 s = (s, some EOF)
  | [], _ => by simp [ReadString]
  | c :: s, h => by
    have hc : c ≠ 10 := h c (List.mem_cons_self _ _)
    have ih := ReadString_unterminated s (fun b hb => h b (List.mem_cons_of_mem _ hb))
    simp [ReadString, hc, ih]

theorem sliceTo_concat (s : Str) (c : UInt8) :
    sliceTo (s ++ [c]) (((s ++ [c]).length : Int) - 1) = .ok s := by
  have h : (((s ++ [c]).length : Int) - 1) = (s.length : Int) := by
    simp
  rw [h]
  simp [sliceTo]

theorem indexByte_concat (s : Str) (c : UInt8) :
    indexByte (s ++ [c]) (((s ++ [c]).length : Int) - 1) = .ok c := by
  have h : (((s ++ [c]).length : Int) - 1) = (s.length : Int) := by
    simp
  rw [h]
  simp [indexByte]

theorem GetURL_no_argument (Args : List Str) (hA : Args.length ≤ 1) (Stdin : Str) :
    GetURL Args Stdin = (lit "Enter URL of RSS Feed: ", do
      let url ← sliceTo (ReadString 10 Stdin).1 (((ReadString 10 Stdin).1.length : Int) - 1)
      let last ← indexByte url ((url.length : Int) - 1)
      if last = 13 then sliceTo url ((url.length : Int) - 1) else pure url) := by
  match Args, hA with
  | [], _ => rfl
  | [_], _ => rfl
  | _ :: _ :: _, h => simp at h

/-- When the text read from standard input has at least two bytes, GetURL drops
the last byte, and the byte before it as well if that is a carriage return. -/
theorem GetURL_of_line (Args : List Str) (hA : Args.length ≤ 1) (Stdin s : Str) (b c : UInt8)
    (hline : (ReadString 10 Stdin).1 = s ++ [b] ++ [c]) :
    GetURL Args Stdin
      = (lit "Enter URL of RSS Feed: ", .ok (if b = 13 then s else s ++ [b])) := by
  rw [GetURL_no_argument Args hA, hline, sliceTo_concat]
  simp only [bind, Except.bind]
  rw [indexByte_concat]
  by_cases hb : b = 13
  · simp only [hb, if_true, sliceTo_concat]
  · simp only [hb, if_false]
    rfl

/-- When the text read from standard input is empty (standard input at end of
file), the slice expression of line 55 panics. -/
theorem GetURL_of_empty_read (Args : List Str) (hA : Args.length ≤ 1) (Stdin : Str)
    (hline : (ReadString 10 Stdin).1 = []) :
    GetURL Args Stdin = (lit "Enter URL of RSS Feed: ", .error (.sliceBounds (-1) 0)) := by
  rw [GetURL_no_argument Args hA, hline]
  rfl

/-- When the text read from standard input is a single byte (an empty line, or
one byte without a newline), the index expression of line 57 panics. -/
theorem GetURL_of_single_byte (Args : List Str) (hA : Args.length ≤ 1) (Stdin : Str) (c : UInt8)
    (hline : (ReadString 10 Stdin).1 = [c]) :
    GetURL Args Stdin = (lit "Enter URL of RSS Feed: ", .error (.indexRange (-1) 0)) := by
  rw [GetURL_no_argument Args hA, hline]
  rfl

/-- Without an argument GetURL panics exactly when fewer than two bytes were
read from standard input. -/
theorem GetURL_panics_iff (Args : List Str) (hA : Args.length ≤ 1) (Stdin : Str) :
    (∃ p, (GetURL Args Stdin).2 = .error p) ↔ (ReadString 10 Stdin).1.length ≤ 1 := by
  rcases List.eq_nil_or_concat (ReadString 10 Stdin).1 with h0 | ⟨l1, c, h1⟩
  · rw [GetURL_of_empty_read Args hA Stdin h0, h0]
    simp
  · rcases List.eq_nil_or_concat l1 with h2 | ⟨s, b, h2⟩
    · subst h2
      rw [GetURL_of_single_byte Args hA Stdin c (by simpa using h1), h1]
      simp
    · subst h2
      rw [GetURL_of_line Args hA Stdin s b c (by simpa using h1), h1]
      simp

/-- A non-empty line ended by a newline, without a carriage return at its end,
is returned without the newline. -/
theorem GetURL_line_lf (Args : List Str) (hA : Args.length ≤ 1) (s : Str) (b : UInt8)
    (rest : Str) (hs : ∀ x ∈ s ++ [b], x ≠ 10) (hb : b ≠ 13) :
    GetURL Args (s ++ [b] ++ lit "\n" ++ rest)
      = (lit "Enter URL of RSS Feed: ", .ok (s ++ [b])) := by
  have hr : (ReadString 10 (s ++ [b] ++ lit "\n" ++ rest)).1 = s ++ [b] ++ [10] := by
    have e : s ++ [b] ++ lit "\n" ++ rest = (s ++ [b]) ++ 10 :: rest := by
      simp [lit]
    rw [e, ReadString_line rest (s ++ [b]) hs]
  rw [GetURL_of_line Args hA _ s b 10 hr]
  simp [hb]

/-- A line ended by carriage return and newline is returned without both, also
when it is empty. -/
theorem GetURL_line_crlf (Args : List Str) (hA : Args.length ≤ 1) (s rest : Str)
    (hs : ∀ x ∈ s, x ≠ 10) :
    GetURL Args (s ++ lit "\r\n" ++ rest) = (lit "Enter URL of RSS Feed: ", .ok s) := by
  have hs2 : ∀ x ∈ s ++ [13], x ≠ 10 := by
    intro x hx
    rcases List.mem_append.mp hx with h | h
    · exact hs x h
    · simp at h
      rw [h]
      decide
  have hr : (ReadString 10 (s ++ lit "\r\n" ++ rest)).1 = s ++ [13] ++ [10] := by
    have e : s ++ lit "\r\n" ++ rest = (s ++ [13]) ++ 10 :: rest := by
      simp [lit]
    rw [e, ReadString_line rest (s ++ [13]) hs2]
  rw [GetURL_of_line Args hA _ s 13 10 hr]
  simp

/-- A last line without a newline loses its last byte: line 55 cuts one byte
whatever it is. -/
theorem GetURL_unterminated_line :
    GetURL [lit "rss"] (lit "abc") = (lit "Enter URL of RSS Feed: ", .ok (lit "ab")) := by
  rfl

/-- C8: evaluation at the failing input.  With no argument and the empty line
"\n" on standard input, GetURL writes the prompt and then panics at the index
expression of line 57 (index -1 of the empty string) instead of returning the
empty string. -/
theorem GetURL_empty_line_panics :
    GetURL [lit "rss"] (lit "\n")
      = (lit "Enter URL of RSS Feed: ", .error (.indexRange (-1) 0)) := by
  rfl

/-- C10: evaluation at the failing input.  With no argument and standard input
at end of file, GetURL writes the prompt and then panics at the slice
expression of line 55 (upper bound -1). -/
theorem GetURL_end_of_input_panics :
    GetURL [lit "rss"] []
      = (lit "Enter URL of RSS Feed: ", .error (.sliceBounds (-1) 0)) := by
  rfl

/-! ### The pipeline -/

/-- C9: in a run of main whose URL stage returned `url` and in which
GetDataFromURL returns the error `err`, or GetDataFromURL succeeds and
ReadXMLData returns the error `err`, the output after the URL stage is the text
of `err` and a newline and nothing else; and when the fetch fails the run is the
same whatever the XML decoder would do. -/
theorem main_error_output (Args : List Str) (Stdin : Str) (Get : Str → Except GoError Response)
    (tokenize : Str → TokenStream) (url : Str) (err : GoError)
    (hurl : (GetURL Args Stdin).2 = .ok url)
    (hfail : (GetDataFromURL Get url).2 = some err
      ∨ ((GetDataFromURL Get url).2 = none
        ∧ (ReadXMLData tokenize (GetDataFromURL Get url).1).2 = some err)) :
    main Args Stdin Get tokenize = ((GetURL Args Stdin).1 ++ err.Error ++ lit "\n", none)
      ∧ ((GetDataFromURL Get url).2 = some err →
          ∀ tokenize2, main Args Stdin Get tokenize2 = main Args Stdin Get tokenize) := by
  cases hG : GetURL Args Stdin with
  | mk out r =>
    rw [hG] at hurl
    simp only at hurl
    subst hurl
    cases hD : GetDataFromURL Get url with
    | mk data o =>
      rw [hD] at hfail
      simp only at hfail
      rcases hfail with h | ⟨h1, h2⟩
      · subst h
        simp [main, hG, hD, Println, formatArg, withWidth, lit]
      · subst h1
        cases hR : ReadXMLData tokenize data with
        | mk ch o2 =>
          rw [hR] at h2
          simp only at h2
          subst h2
          simp [main, hG, hD, hR, Println, formatArg, withWidth, lit]

theorem main_error_output_witness :
    main [lit "rss", lit "http://a/missing"] [] sampleGet sampleTokenize
        = (lit "Status error: 404\n\n", none)
      ∧ main [lit "rss"] (lit "http://a/broken\r\n") sampleGet sampleTokenize
        = (lit "Enter URL of RSS Feed: XML syntax error on line 1: unexpected EOF\n", none) :=
  ⟨(main_error_output [lit "rss", lit "http://a/missing"] [] sampleGet sampleTokenize
      (lit "http://a/missing") ⟨lit "Status error: 404\n"⟩ rfl (Or.inl rfl)).1,
    (main_error_output [lit "rss"] (lit "http://a/broken\r\n") sampleGet sampleTokenize
      (lit "http://a/broken") unexpectedEOF rfl
      (Or.inr ⟨rfl, congrArg Prod.snd ReadXMLData_broken⟩)).1⟩

end GoRSSReader
